import Mathlib

/-!
Verification of the listing-to-source correlator of `vscode-assembly-explorer`
(`src/extension.ts`, method `_decorateMSVC`).  The parser is a line-oriented
state machine (the `state` object, lines 308–375); the assembler turns the
accumulated map into sorted `AssemblyListing` records (lines 384–394).  We
embed both as pure Lean functions over `String`; the JS string operations are
modelled on the underlying character list.
-/

namespace AsmExplorer

/-- JS `line.startsWith(p)`. -/
def jsStartsWith (line p : String) : Bool :=
  p.data.isPrefixOf line.data

/-- JS `line.endsWith(p)`. -/
def jsEndsWith (line p : String) : Bool :=
  p.data.isSuffixOf line.data

/-- JS `line.trim()`: remove whitespace at both ends. -/
def trimList (cs : List Char) : List Char :=
  ((cs.dropWhile Char.isWhitespace).reverse.dropWhile Char.isWhitespace).reverse

/-- JS `line.trim()` as a string. -/
def jsTrim (line : String) : String :=
  String.mk (trimList line.data)

/-- Numeric value of a decimal digit string, as JS `parseInt` on a `\d+` capture. -/
def digitsToNat (ds : List Char) : Nat :=
  ds.foldl (fun a c => a * 10 + (c.toNat - '0'.toNat)) 0

/-- Greedy take of a nonempty run satisfying `p`; `none` if the first char fails.
Used to model the `+`-quantified character classes of the directive regex
(the classes involved are pairwise disjoint, so greedy matching is exact). -/
def takeRun1 (p : Char → Bool) (cs : List Char) : Option (List Char × List Char) :=
  match cs with
  | [] => none
  | c :: _ => if p c then some (cs.takeWhile p, cs.dropWhile p) else none

/-- `line_re = /^;\s+(\d+)\s+:/` (line 314): on success returns the parsed
integer of the single capture group, as `parseInt(mat[1])` at line 345. -/
def lineReExec (line : String) : Option Nat :=
  match line.data with
  | ';' :: rest =>
    match takeRun1 Char.isWhitespace rest with
    | none => none
    | some (_, r1) =>
      match takeRun1 Char.isDigit r1 with
      | none => none
      | some (digits, r2) =>
        match takeRun1 Char.isWhitespace r2 with
        | none => none
        | some (_, r3) =>
          match r3 with
          | ':' :: _ => some (digitsToNat digits)
          | _ => none
  | _ => none

/-- The mutable `state` of `_decorateMSVC` (lines 308–313).  `line_content`
is the JS `Map<number, string[]>`, modelled as an insertion-ordered
association list with unique keys. -/
structure ParserState where
  in_file : Bool
  in_text : Bool
  current_line : Nat
  line_content : List (Nat × List String)
deriving DecidableEq, Repr

/-- `state.line_content.has(k)`. -/
def mapHas (m : List (Nat × List String)) (k : Nat) : Bool :=
  m.any (fun p => p.1 == k)

/-- Lines 367–374: push `v` onto the entry for `k`, creating `[v]` at the end
(JS `Map.set` insertion order) when the key is absent. -/
def mapAppend (m : List (Nat × List String)) (k : Nat) (v : String) :
    List (Nat × List String) :=
  match m with
  | [] => [(k, [v])]
  | (k', vs) :: rest =>
    if k' == k then (k', vs ++ [v]) :: rest else (k', vs) :: mapAppend rest k v

/-- Initial parser state (lines 308–313). -/
def initState : ParserState :=
  { in_file := false, in_text := false, current_line := 0, line_content := [] }

/-- One step of the line callback (lines 319–375), for target temp path
`tmppath` and `doc.lineCount = lineCount`. -/
def step (tmppath : String) (lineCount : Nat) (st : ParserState) (line : String) :
    ParserState :=
  if jsStartsWith line "; File " then
    if jsTrim line == "; File " ++ tmppath then
      { st with in_file := true }
    else
      { st with in_file := false, in_text := false, current_line := 0 }
  else if !st.in_file then
    st
  else if jsStartsWith line "_TEXT" && jsEndsWith line "SEGMENT" then
    { st with in_text := true }
  else if jsEndsWith line "ENDP" || (jsStartsWith line "_TEXT" && jsEndsWith line "ENDS") then
    { st with in_file := false, in_text := false, current_line := 0 }
  else if jsStartsWith line ";" then
    match lineReExec line with
    | some n =>
      if n > lineCount || mapHas st.line_content n then
        { st with current_line := 0 }
      else
        { st with current_line := n }
    | none => st
  else if jsTrim line == "" then
    st
  else if !jsStartsWith line "\t" then
    { st with current_line := 0 }
  else if st.current_line != 0 then
    { st with line_content := mapAppend st.line_content st.current_line line }
  else
    st

/-- The whole parse: fold the callback over the listing's lines and return the
accumulated mapping. -/
def parse (tmppath : String) (lineCount : Nat) (listing : List String) :
    List (Nat × List String) :=
  (listing.foldl (step tmppath lineCount) initState).line_content

/-- Output record (interface `AssemblyListing`, lines 29–35). -/
structure AssemblyListing where
  line : Nat
  file : String
  assembly : String
  code : String
  color : String
deriving DecidableEq, Repr

/-- The fixed color palette (line 27). -/
def COLORS : List String :=
  ["#fbb4ae", "#b3cde3", "#ccebc5", "#decbe4", "#fed9a6", "#ffffcc", "#e5d8bd", "#fddaec"]

/-- `doc.lineAt(i).text`, an `Int` index as JS computes it; a well-formed call
has `0 ≤ i < src.length` (out of range would throw in the editor API). -/
def lineAt (src : List String) (i : Int) : String :=
  if h : 0 ≤ i ∧ i.toNat < src.length then src.get ⟨i.toNat, h.2⟩ else ""

/-- The per-entry construction inside `.map` (lines 385–393). -/
def mkListing (fileName : String) (src : List String) (p : Nat × List String) :
    AssemblyListing :=
  { line := p.1
    file := fileName
    assembly := String.intercalate "\r\n" p.2
    code := lineAt src ((min p.1 src.length : Int) - 1)
    color := COLORS.getD (p.1 * 11 % COLORS.length) "" }

/-- Lines 384–394: map the accumulated entries to listings and sort ascending
by `line` (`.sort((a, b) => a.line - b.line)`, a stable ascending sort). -/
def assemble (fileName : String) (src : List String)
    (m : List (Nat × List String)) : List AssemblyListing :=
  (m.map (mkListing fileName src)).mergeSort (fun a b => a.line ≤ b.line)

example : lineReExec "; 5 :" = some 5 := by decide

example : lineReExec "; File foo" = none := by decide

example : lineReExec ";5 :" = none := by decide

example :
    parse "t" 10 ["; File t", "_TEXT SEGMENT", "; 5 :", "\tmov eax, 1", "x ENDP"] =
      [(5, ["\tmov eax, 1"])] := by decide

example : parse "t" 10 ["\tmov eax, 1"] = [] := by decide

lemma data_of_semi (line : String) (h : jsStartsWith line ";" = true) :
    ∃ t, line.data = ';' :: t := by
  have h2 : (String.data ";").isPrefixOf line.data = true := h
  obtain ⟨t, ht⟩ := List.isPrefixOf_iff_prefix.mp h2
  exact ⟨t, by simpa using ht.symm⟩

lemma not_TEXT_of_semi (line : String) (h : jsStartsWith line ";" = true) :
    jsStartsWith line "_TEXT" = false := by
  obtain ⟨t, ht⟩ := data_of_semi line h
  show (String.data "_TEXT").isPrefixOf line.data = false
  rw [ht]
  show List.isPrefixOf ['_', 'T', 'E', 'X', 'T'] (';' :: t) = false
  simp [List.isPrefixOf]

lemma not_SEGMENT_of_ENDP (line : String) (h : jsEndsWith line "ENDP" = true) :
    jsEndsWith line "SEGMENT" = false := by
  by_contra hc
  have h1 : (String.data "ENDP") <:+ line.data := List.isSuffixOf_iff_suffix.mp h
  have h2 : (String.data "SEGMENT") <:+ line.data := by
    have hc2 := eq_true_of_ne_false (by simpa using hc)
    exact List.isSuffixOf_iff_suffix.mp hc2
  rcases List.suffix_or_suffix_of_suffix h1 h2 with h3 | h3 <;> revert h3 <;> decide

lemma not_SEGMENT_of_ENDS (line : String) (h : jsEndsWith line "ENDS" = true) :
    jsEndsWith line "SEGMENT" = false := by
  by_contra hc
  have h1 : (String.data "ENDS") <:+ line.data := List.isSuffixOf_iff_suffix.mp h
  have h2 : (String.data "SEGMENT") <:+ line.data := by
    have hc2 := eq_true_of_ne_false (by simpa using hc)
    exact List.isSuffixOf_iff_suffix.mp hc2
  rcases List.suffix_or_suffix_of_suffix h1 h2 with h3 | h3 <;> revert h3 <;> decide

lemma semi_of_lineRe (line : String) (n : Nat) (h : lineReExec line = some n) :
    jsStartsWith line ";" = true := by
  unfold lineReExec at h
  split at h
  · next rest heq =>
    show (String.data ";").isPrefixOf line.data = true
    rw [heq]
    show List.isPrefixOf [';'] (';' :: rest) = true
    simp [List.isPrefixOf]
  · simp at h

lemma lineRe_none_of_fileDir (line : String) (h : jsStartsWith line "; File " = true) :
    lineReExec line = none := by
  have h2 : (String.data "; File ").isPrefixOf line.data = true := h
  obtain ⟨t, ht⟩ := List.isPrefixOf_iff_prefix.mp h2
  have ht' : line.data = ';' :: ' ' :: 'F' :: 'i' :: 'l' :: 'e' :: ' ' :: t := by
    simpa using ht.symm
  unfold lineReExec
  rw [ht']
  simp [takeRun1, List.takeWhile, List.dropWhile]

lemma foldl_no_open (tmppath : String) (lineCount : Nat) (listing : List String)
    (h : ∀ line ∈ listing, ¬(jsStartsWith line "; File " = true ∧
        jsTrim line = "; File " ++ tmppath)) :
    ∀ st : ParserState, st.in_file = false →
      (listing.foldl (step tmppath lineCount) st).in_file = false ∧
      (listing.foldl (step tmppath lineCount) st).line_content = st.line_content := by
  induction listing with
  | nil => exact fun st hst => ⟨hst, rfl⟩
  | cons l ls ih =>
    intro st hst
    have hl := h l (List.mem_cons_self _ _)
    have hstep : (step tmppath lineCount st l).in_file = false ∧
        (step tmppath lineCount st l).line_content = st.line_content := by
      unfold step
      by_cases hf : jsStartsWith l "; File " = true
      · have hne : ¬(jsTrim l = "; File " ++ tmppath) := fun he => hl ⟨hf, he⟩
        simp [hf, hne]
      · simp [hf, hst]
    have hrest := ih (fun x hx => h x (List.mem_cons_of_mem _ hx))
      (step tmppath lineCount st l) hstep.1
    exact ⟨by simpa using hrest.1, by simpa [hstep.2] using hrest.2⟩

lemma keysBound_mapAppend (lineCount k : Nat) (v : String)
    (m : List (Nat × List String))
    (hm : ∀ p ∈ m, 1 ≤ p.1 ∧ p.1 ≤ lineCount)
    (hk1 : 1 ≤ k) (hk2 : k ≤ lineCount) :
    ∀ p ∈ mapAppend m k v, 1 ≤ p.1 ∧ p.1 ≤ lineCount := by
  induction m with
  | nil =>
    intro p hp
    simp [mapAppend] at hp
    simp [hp, hk1, hk2]
  | cons q rest ih =>
    obtain ⟨j, vs⟩ := q
    intro p hp
    unfold mapAppend at hp
    split at hp
    · rcases List.mem_cons.mp hp with h | h
      · subst h
        exact hm (j, vs) (by simp)
      · exact hm p (List.mem_cons_of_mem _ h)
    · rcases List.mem_cons.mp hp with h | h
      · subst h
        exact hm (j, vs) (by simp)
      · exact ih (fun q hq => hm q (List.mem_cons_of_mem _ hq)) p h

lemma step_keys_bound (tmppath : String) (lineCount : Nat) (st : ParserState)
    (line : String) (hcl : st.current_line ≤ lineCount)
    (hkeys : ∀ p ∈ st.line_content, 1 ≤ p.1 ∧ p.1 ≤ lineCount) :
    (step tmppath lineCount st line).current_line ≤ lineCount ∧
    ∀ p ∈ (step tmppath lineCount st line).line_content,
      1 ≤ p.1 ∧ p.1 ≤ lineCount := by
  unfold step
  repeat' split
  all_goals refine ⟨?_, ?_⟩
  all_goals try exact hcl
  all_goals try exact Nat.zero_le _
  all_goals try exact hkeys
  · rename_i hre hguard
    simp at hguard
    dsimp only
    omega
  · rename_i hindent hne
    simp at hne
    exact keysBound_mapAppend lineCount st.current_line line st.line_content
      hkeys (by omega) hcl

lemma foldl_keys_bound (tmppath : String) (lineCount : Nat)
    (listing : List String) :
    ∀ st : ParserState, st.current_line ≤ lineCount →
      (∀ p ∈ st.line_content, 1 ≤ p.1 ∧ p.1 ≤ lineCount) →
      ∀ p ∈ (listing.foldl (step tmppath lineCount) st).line_content,
        1 ≤ p.1 ∧ p.1 ≤ lineCount := by
  induction listing with
  | nil => exact fun st _ hkeys => hkeys
  | cons l ls ih =>
    intro st hcl hkeys
    have hstep := step_keys_bound tmppath lineCount st l hcl hkeys
    exact ih (step tmppath lineCount st l) hstep.1 hstep.2

/-- C1 (counterexample): after the file directive for the target and a
line-number directive — but with no segment-open marker ever seen, so
`in_text` is still `false` — the indented instruction line is nevertheless
added to the accumulated mapping.  This refutes the claim that `parse`
collects an indented line only while `in_code_segment` is true. -/
theorem C1_counterexample :
    ((List.foldl (step "t" 1) initState ["; File t", "; 1 :"]).in_text = false) ∧
    parse "t" 1 ["; File t", "; 1 :", "\tmov eax, 1"] = [(1, ["\tmov eax, 1"])] := by
  decide

/-- C1 (amended): collection of an indented line is gated on `in_file = true`
and `current_line ≠ 0`, not on `in_text`: whenever `in_file` is false or
`current_line` is the `0` sentinel, a step leaves the accumulated mapping
unchanged.  (`in_text` is tracked by the parser but never consulted.) -/
theorem C1_collect_not_gated_by_segment (tmppath line : String) (lineCount : Nat)
    (st : ParserState) (h : st.in_file = false ∨ st.current_line = 0) :
    (step tmppath lineCount st line).line_content = st.line_content := by
  rcases h with h | h <;> unfold step <;> simp [h] <;> (repeat' split) <;> simp_all

/-- C1 (witness): the amended theorem applied at the initial state and a
concrete instruction line. -/
theorem C1_witness :
    (initState.in_file = false ∨ initState.current_line = 0) ∧
    (step "t" 1 initState "\tret").line_content = initState.line_content :=
  ⟨Or.inl rfl, C1_collect_not_gated_by_segment "t" "\tret" 1 initState (Or.inl rfl)⟩

/-- C2 (counterexample): processing a procedure-end marker while
`in_target_file = true` does NOT leave `in_target_file` unchanged — the code
also resets `in_file` to `false` (line 337), contrary to the claim that only
`in_code_segment` and `current_line` change. -/
theorem C2_counterexample :
    (ParserState.in_file ⟨true, false, 3, []⟩ = true) ∧
    (step "t" 10 ⟨true, false, 3, []⟩ "foo ENDP").in_file = false := by
  decide

/-- C2 (amended): with `in_target_file = true`, a segment-close line (ending
in the procedure-end marker, or a `_TEXT`-prefixed segment-end marker) that is
not a file-boundary directive resets `in_code_segment := false`,
`current_line := 0` AND `in_target_file := false`, leaving the accumulated
mapping unchanged. -/
theorem C2_segment_close_resets (tmppath line : String) (lineCount : Nat)
    (st : ParserState) (hin : st.in_file = true)
    (hnf : jsStartsWith line "; File " = false)
    (hclose : jsEndsWith line "ENDP" = true ∨
      (jsStartsWith line "_TEXT" = true ∧ jsEndsWith line "ENDS" = true)) :
    step tmppath lineCount st line =
      { st with in_file := false, in_text := false, current_line := 0 } := by
  have hseg : (jsStartsWith line "_TEXT" && jsEndsWith line "SEGMENT") = false := by
    rcases hclose with h | ⟨h1, h2⟩
    · simp [not_SEGMENT_of_ENDP line h]
    · simp [not_SEGMENT_of_ENDS line h2]
  have hcl : (jsEndsWith line "ENDP" ||
      (jsStartsWith line "_TEXT" && jsEndsWith line "ENDS")) = true := by
    rcases hclose with h | ⟨h1, h2⟩
    · simp [h]
    · simp [h1, h2]
  unfold step
  simp [hnf, hin, hseg, hcl]

/-- C2 (witness): the amended theorem applied at a concrete in-file state and
a concrete procedure-end line. -/
theorem C2_witness :
    ((ParserState.in_file ⟨true, true, 7, []⟩ = true) ∧
     jsStartsWith "foo ENDP" "; File " = false ∧
     (jsEndsWith "foo ENDP" "ENDP" = true ∨
       (jsStartsWith "foo ENDP" "_TEXT" = true ∧
        jsEndsWith "foo ENDP" "ENDS" = true))) ∧
    step "t" 10 ⟨true, true, 7, []⟩ "foo ENDP" = ⟨false, false, 0, []⟩ :=
  ⟨⟨rfl, by decide, Or.inl (by decide)⟩,
   C2_segment_close_resets "t" "foo ENDP" 10 ⟨true, true, 7, []⟩ rfl
     (by decide) (Or.inl (by decide))⟩

/-- C4: a line-number directive whose parsed number exceeds `lineCount`, or
whose number already has a mapping entry, sets `current_line` to the `0`
sentinel; and the two concrete examples: a duplicated directive for line 5
keeps only the first block, and an out-of-range directive (99 with only 3
source lines) yields an empty mapping. -/
theorem C4_directive_noise (tmppath : String) (lineCount : Nat) :
    (∀ (st : ParserState) (line : String) (n : Nat),
        st.in_file = true → lineReExec line = some n →
        (n > lineCount ∨ mapHas st.line_content n = true) →
        (step tmppath lineCount st line).current_line = 0) ∧
    (List.foldl (step "t" 10) { initState with in_file := true }
        ["; 5 :", "\tmov eax, 1", "; 5 :", "\tmov eax, 2"]).line_content =
      [(5, ["\tmov eax, 1"])] ∧
    (List.foldl (step "t" 3) { initState with in_file := true }
        ["; 99 :", "\tnop"]).line_content = [] := by
  refine ⟨?_, by decide, by decide⟩
  intro st line n hin hre hnoise
  have hsemi := semi_of_lineRe line n hre
  have hnf : jsStartsWith line "; File " = false := by
    by_contra hc
    have h2 := lineRe_none_of_fileDir line (eq_true_of_ne_false hc)
    rw [h2] at hre
    simp at hre
  have htext := not_TEXT_of_semi line hsemi
  by_cases hend : jsEndsWith line "ENDP" = true
  · unfold step
    simp [hnf, hin, htext, hend]
  · unfold step
    simp [hnf, hin, htext, hend, hsemi, hre, hnoise]

/-- C4 (witness): the universally quantified part applied at a concrete
in-file state and the out-of-range directive of the second example. -/
theorem C4_witness :
    ((ParserState.in_file { initState with in_file := true } = true) ∧
     lineReExec "; 99 :" = some 99 ∧
     (99 > 3 ∨ mapHas (ParserState.line_content
        { initState with in_file := true }) 99 = true)) ∧
    (step "t" 3 { initState with in_file := true } "; 99 :").current_line = 0 :=
  ⟨⟨rfl, by decide, Or.inl (by decide)⟩,
   (C4_directive_noise "t" 3).1 { initState with in_file := true } "; 99 :" 99
     rfl (by decide) (Or.inl (by decide))⟩

/-- C5: for a mapping with pairwise-distinct line keys, the output of
`assemble` is strictly ascending in `source_line` — hence no two entries share
a line. -/
theorem C5_output_sorted_unique (fileName : String) (src : List String)
    (m : List (Nat × List String)) (h : (m.map Prod.fst).Nodup) :
    (assemble fileName src m).Pairwise (fun a b => a.line < b.line) := by
  unfold assemble
  have hperm := List.mergeSort_perm (m.map (mkListing fileName src))
    (fun a b => a.line ≤ b.line)
  have hs := @List.sorted_mergeSort AssemblyListing
    (fun a b => decide (a.line ≤ b.line))
    (fun a b c => by simpa using Nat.le_trans)
    (fun a b => by simpa using Nat.le_total a.line b.line)
    (m.map (mkListing fileName src))
  have hlines : ((m.map (mkListing fileName src)).map
      AssemblyListing.line) = m.map Prod.fst := by
    simp [mkListing]
  have hnd : (((m.map (mkListing fileName src)).mergeSort
      (fun a b => a.line ≤ b.line)).map AssemblyListing.line).Nodup := by
    refine ((hperm.map AssemblyListing.line).nodup_iff).mpr ?_
    rw [hlines]
    exact h
  have hne := List.pairwise_map.mp hnd
  exact (hs.and hne).imp (fun hab => Nat.lt_of_le_of_ne (by simpa using hab.1) hab.2)

/-- C5 (witness): the theorem applied to a concrete two-entry mapping whose
keys arrive out of order. -/
theorem C5_witness :
    (([(2, ["\ta"]), (1, ["\tb"])].map Prod.fst).Nodup) ∧
    (assemble "f" ["x"] [(2, ["\ta"]), (1, ["\tb"])]).Pairwise
      (fun a b => a.line < b.line) :=
  ⟨by decide, C5_output_sorted_unique "f" ["x"] [(2, ["\ta"]), (1, ["\tb"])] (by decide)⟩

/-- C6: a listing none of whose lines is a file-boundary directive naming the
target path exactly (in particular an empty listing) parses to an empty
mapping, and the assembled result is the empty sequence; no error is involved
(all functions are total). -/
theorem C6_no_match_empty (tmppath fileName : String) (lineCount : Nat)
    (src listing : List String)
    (h : ∀ line ∈ listing, ¬(jsStartsWith line "; File " = true ∧
        jsTrim line = "; File " ++ tmppath)) :
    parse tmppath lineCount listing = [] ∧
    assemble fileName src (parse tmppath lineCount listing) = [] := by
  have h2 := foldl_no_open tmppath lineCount listing h initState rfl
  have hp : parse tmppath lineCount listing = [] := h2.2
  exact ⟨hp, by rw [hp]; simp [assemble]⟩

/-- C6 (witness): the theorem applied to a concrete listing holding an
instruction and a directive for a different file. -/
theorem C6_witness :
    (∀ line ∈ ["\tmov eax, 1", "; File other"],
        ¬(jsStartsWith line "; File " = true ∧
          jsTrim line = "; File " ++ "t")) ∧
    parse "t" 5 ["\tmov eax, 1", "; File other"] = [] ∧
    assemble "f" ["a"] (parse "t" 5 ["\tmov eax, 1", "; File other"]) = [] :=
  ⟨by decide, C6_no_match_empty "t" "f" 5 ["a"] ["\tmov eax, 1", "; File other"] (by decide)⟩

/-- C7: for a positive line number and nonempty source, the index
`min(line, src.length) - 1` used by the assembler is within bounds
(nonnegative and below the length), and the resolved `code` field is exactly
the source line at that clamped index. -/
theorem C7_clamped_index (fileName : String) (src : List String) (lineno : Nat)
    (instrs : List String) (h1 : 1 ≤ lineno) (h2 : 0 < src.length) :
    (0 : Int) ≤ (min lineno src.length : Int) - 1 ∧
    ((min lineno src.length : Int) - 1).toNat < src.length ∧
    (mkListing fileName src (lineno, instrs)).code =
      src.getD (min lineno src.length - 1) "" := by
  have hmin : 1 ≤ min lineno src.length := le_min h1 h2
  have hminle : min lineno src.length ≤ src.length := min_le_right _ _
  have ha : (0 : Int) ≤ (min lineno src.length : Int) - 1 := by
    have hcast : (1 : Int) ≤ (min lineno src.length : Int) := by exact_mod_cast hmin
    omega
  have htn : ((min lineno src.length : Int) - 1).toNat = min lineno src.length - 1 := by
    omega
  have hb : ((min lineno src.length : Int) - 1).toNat < src.length := by
    omega
  refine ⟨ha, hb, ?_⟩
  show lineAt src ((min lineno src.length : Int) - 1) = _
  unfold lineAt
  rw [dif_pos ⟨ha, hb⟩]
  have hget : ∀ (i : Nat) (hi : i < src.length), src.get ⟨i, hi⟩ = src.getD i "" := by
    intro i hi
    simp [List.getD_eq_getElem?_getD, List.getElem?_eq_getElem hi]
  rw [hget _ hb, htn]

/-- C7 (witness): the theorem applied with line 5 against a two-line source,
exercising the clamp. -/
theorem C7_witness :
    ((1 ≤ 5) ∧ 0 < (["a", "b"] : List String).length) ∧
    ((0 : Int) ≤ (min 5 (["a", "b"] : List String).length : Int) - 1 ∧
     ((min 5 (["a", "b"] : List String).length : Int) - 1).toNat <
       (["a", "b"] : List String).length ∧
     (mkListing "f" ["a", "b"] (5, ["\tret"])).code =
       (["a", "b"] : List String).getD (min 5 (["a", "b"] : List String).length - 1) "") :=
  ⟨⟨by decide, by decide⟩,
   C7_clamped_index "f" ["a", "b"] 5 ["\tret"] (by decide) (by decide)⟩

/-- C8: every entry of the assembled output carries
`color = COLORS[(line * 11) % COLORS.length]`, a function of its own line
only — independent of which other lines are present in the mapping. -/
theorem C8_color_stable (fileName : String) (src : List String)
    (m : List (Nat × List String)) (e : AssemblyListing)
    (he : e ∈ assemble fileName src m) :
    e.color = COLORS.getD (e.line * 11 % COLORS.length) "" := by
  unfold assemble at he
  rw [List.mem_mergeSort] at he
  obtain ⟨p, hp, hpe⟩ := List.mem_map.mp he
  subst hpe
  rfl

/-- C8 (witness): the theorem applied to the single entry assembled from a
one-key mapping. -/
theorem C8_witness :
    ((mkListing "f" ["a"] (5, ["\tret"])) ∈ assemble "f" ["a"] [(5, ["\tret"])]) ∧
    (mkListing "f" ["a"] (5, ["\tret"])).color =
      COLORS.getD ((mkListing "f" ["a"] (5, ["\tret"])).line * 11 % COLORS.length) "" :=
  ⟨List.mem_mergeSort.mpr (by decide),
   C8_color_stable "f" ["a"] [(5, ["\tret"])] (mkListing "f" ["a"] (5, ["\tret"]))
     (List.mem_mergeSort.mpr (by decide))⟩

/-- C9 (counterexample): a line beginning with a semicolon that is neither a
file-boundary directive nor a line-number directive, but which ends in the
procedure-end marker, does NOT leave the state unchanged: the segment-close
branch fires first and resets `in_file`, `in_text` and `current_line`. -/
theorem C9_counterexample :
    (jsStartsWith "; x ENDP" ";" = true ∧
     jsStartsWith "; x ENDP" "; File " = false ∧
     lineReExec "; x ENDP" = none ∧
     ParserState.in_file ⟨true, false, 3, []⟩ = true) ∧
    ¬ step "t" 10 ⟨true, false, 3, []⟩ "; x ENDP" = ⟨true, false, 3, []⟩ := by
  decide

/-- C9 (amended): while `in_target_file = true`, a line beginning with a
semicolon that is not a file-boundary directive, does not end in the
procedure-end marker, and does not match the line-number pattern leaves the
entire parser state unchanged. -/
theorem C9_plain_comment_noop (tmppath line : String) (lineCount : Nat)
    (st : ParserState) (hin : st.in_file = true)
    (hsemi : jsStartsWith line ";" = true)
    (hnf : jsStartsWith line "; File " = false)
    (hne : jsEndsWith line "ENDP" = false)
    (hre : lineReExec line = none) :
    step tmppath lineCount st line = st := by
  have htext := not_TEXT_of_semi line hsemi
  unfold step
  simp [hnf, hin, htext, hne, hsemi, hre]

/-- C9 (witness): the amended theorem applied to a concrete comment line in a
concrete in-file state. -/
theorem C9_witness :
    ((ParserState.in_file ⟨true, true, 2, []⟩ = true) ∧
     jsStartsWith "; hello" ";" = true ∧
     jsStartsWith "; hello" "; File " = false ∧
     jsEndsWith "; hello" "ENDP" = false ∧
     lineReExec "; hello" = none) ∧
    step "t" 9 ⟨true, true, 2, []⟩ "; hello" = ⟨true, true, 2, []⟩ :=
  ⟨⟨rfl, by decide, by decide, by decide, by decide⟩,
   C9_plain_comment_noop "t" "; hello" 9 ⟨true, true, 2, []⟩ rfl
     (by decide) (by decide) (by decide) (by decide)⟩

/-- C10: every key of the mapping returned by `parse` is between 1 and
`lineCount`: a directive naming line 0 sets the `0` sentinel, and collection
only happens while `current_line ≠ 0`, so 0 is never a key. -/
theorem C10_keys_in_range (tmppath : String) (lineCount : Nat)
    (listing : List String) (k : Nat) (instrs : List String)
    (hk : (k, instrs) ∈ parse tmppath lineCount listing) :
    1 ≤ k ∧ k ≤ lineCount :=
  foldl_keys_bound tmppath lineCount listing initState
    (Nat.zero_le _) (by simp [initState]) (k, instrs) hk

/-- C10 (witness): the theorem applied to the key produced by a concrete
three-line listing. -/
theorem C10_witness :
    ((2, ["\tret"]) ∈ parse "t" 3 ["; File t", "; 2 :", "\tret"]) ∧
    (1 ≤ 2 ∧ 2 ≤ 3) :=
  ⟨by decide, C10_keys_in_range "t" 3 ["; File t", "; 2 :", "\tret"] 2 ["\tret"] (by decide)⟩

end AsmExplorer
